import Mathlib

/-!
Verification of the Jacobi-identity checker from
`sage/categories/lie_conformal_algebras.py`
(`LieConformalAlgebras.ParentMethods._test_jacobi` and its super variant
`LieConformalAlgebras.Super.ParentMethods._test_jacobi`).

Python dictionaries are embedded as association lists with unique keys
(insertion order preserved, assignment to an existing key keeps its
position).  Algebra elements are kept abstract: an `LCAData` record carries
the operations the checker consumes (`bracket`, `zero`, addition,
subtraction, integer scalar action, the truthiness test, the parity query,
and the basis-splitting data used by the super variant).
-/

set_option maxRecDepth 4000

/-- `d.get(k, dflt)` on a Python dict: the value at the first occurrence of
`k`, else the default. -/
def dget {α β : Type} [DecidableEq α] (d : List (α × β)) (k : α) (dflt : β) : β :=
  match d with
  | [] => dflt
  | (k', v') :: rest => if k' = k then v' else dget rest k dflt

/-- `d[k] = v` on a Python dict: overwrite the value at an existing key in
place, else append the new binding. -/
def dset {α β : Type} [DecidableEq α] (d : List (α × β)) (k : α) (v : β) : List (α × β) :=
  match d with
  | [] => [(k, v)]
  | (k', v') :: rest => if k' = k then (k, v) :: rest else (k', v') :: dset rest k v

/-- A Python dict comprehension `{k: v for ...}`: successive assignments
into an initially empty dict. -/
def dictComp {α β : Type} [DecidableEq α] (ps : List (α × β)) : List (α × β) :=
  ps.foldl (fun d p => dset d p.1 p.2) []

/-- The operations of a (possibly super) Lie conformal algebra consumed by
`_test_jacobi`: the λ-bracket as a sparse mapping from `n` to the `n`-th
product, the zero element, module arithmetic, integer scalar action
(covering both `binomial(k+r,r)*v` and `sgn*v`), truthiness (`isZero v`
models `not bool(v)`), the parity query `is_even_odd` (`none` models a
raised `ValueError` on a non-homogeneous element), `is_with_basis`, and the
even/odd component maps. -/
structure LCAData (L : Type) where
  bracket : L → L → List (Nat × L)
  zero : L
  add : L → L → L
  sub : L → L → L
  smul : Int → L → L
  isZero : L → Bool
  parityQ : L → Option Nat
  hasB : Bool
  evenC : L → L
  oddC : L → L

/-- `jac1 = {(j,k): v for k in br1 for j,v in br1[k].items()}`. -/
def jac1Dict {L : Type} (br1 : List (Nat × List (Nat × L))) : List ((Nat × Nat) × L) :=
  dictComp (br1.flatMap (fun kb => kb.2.map (fun jv => ((jv.1, kb.1), jv.2))))

/-- `jac3 = {(k,j): v for k in br3 for j,v in br3[k].items()}` (indices
swapped relative to `jac1`). -/
def jac3Dict {L : Type} (br3 : List (Nat × List (Nat × L))) : List ((Nat × Nat) × L) :=
  dictComp (br3.flatMap (fun kb => kb.2.map (fun jv => ((kb.1, jv.1), jv.2))))

/-- The `jac2` accumulation loop: for each `k` in `br2`, each `(j,v)` in
`br2[k]`, each `r in range(j+1)`,
`jac2[(k+r, j-r)] = jac2.get((k+r, j-r), pz) + binomial(k+r, r)*v`. -/
def jac2Dict {L : Type} (A : LCAData L) (br2 : List (Nat × List (Nat × L))) :
    List ((Nat × Nat) × L) :=
  br2.foldl (fun d kb =>
    kb.2.foldl (fun d jv =>
      (List.range (jv.1 + 1)).foldl (fun d r =>
        dset d (kb.1 + r, jv.1 - r)
          (A.add (dget d (kb.1 + r, jv.1 - r) A.zero)
                 (A.smul (Int.ofNat (Nat.choose (kb.1 + r) r)) jv.2))) d) d) []

/-- The plain `_test_jacobi` body for one triple `(x, y, z)`, up to and
including the two subtraction loops: the final `jac1` accumulator
(`jac1 - jac2 - jac3`), before filtering out zero values. -/
def jac1Final {L : Type} (A : LCAData L) (x y z : L) : List ((Nat × Nat) × L) :=
  let brxy := A.bracket x y
  let brxz := A.bracket x z
  let bryz := A.bracket y z
  let br1 := bryz.map (fun kv => (kv.1, A.bracket x kv.2))
  let br2 := brxy.map (fun kv => (kv.1, A.bracket kv.2 z))
  let br3 := brxz.map (fun kv => (kv.1, A.bracket y kv.2))
  let jac1 := jac1Dict br1
  let jac3 := jac3Dict br3
  let jac2 := jac2Dict A br2
  let jac1 := jac2.foldl (fun d kv => dset d kv.1 (A.sub (dget d kv.1 A.zero) kv.2)) jac1
  jac3.foldl (fun d kv => dset d kv.1 (A.sub (dget d kv.1 A.zero) kv.2)) jac1

/-- `jacobiator = {k: v for k,v in jac1.items() if v}` for the plain
variant: the nonzero entries of the final accumulator.  (The keys of
`jac1` are pairwise distinct, so the comprehension is a filter.) -/
def jacobiatorPlain {L : Type} (A : LCAData L) (x y z : L) : List ((Nat × Nat) × L) :=
  (jac1Final A x y z).filter (fun kv => !(A.isZero kv.2))

/-- The super `_test_jacobi` body for one triple, with the sign `sgn`
already computed: the final accumulator `jac1 - jac2 - sgn·jac3`. -/
def superJacFinal {L : Type} (A : LCAData L) (sgn : Int) (x y z : L) :
    List ((Nat × Nat) × L) :=
  let brxy := A.bracket x y
  let brxz := A.bracket x z
  let bryz := A.bracket y z
  let br1 := bryz.map (fun kv => (kv.1, A.bracket x kv.2))
  let br2 := brxy.map (fun kv => (kv.1, A.bracket kv.2 z))
  let br3 := brxz.map (fun kv => (kv.1, A.bracket y kv.2))
  let jac1 := jac1Dict br1
  let jac3 := jac3Dict br3
  let jac2 := jac2Dict A br2
  let jac1 := jac2.foldl (fun d kv => dset d kv.1 (A.sub (dget d kv.1 A.zero) kv.2)) jac1
  jac3.foldl (fun d kv => dset d kv.1 (A.sub (dget d kv.1 A.zero) (A.smul sgn kv.2))) jac1

/-- The nonzero entries of the super variant's final accumulator. -/
def superJacWithSgn {L : Type} (A : LCAData L) (sgn : Int) (x y z : L) :
    List ((Nat × Nat) × L) :=
  (superJacFinal A sgn x y z).filter (fun kv => !(A.isZero kv.2))

/-- `if x.is_even_odd()*y.is_even_odd(): sgn = -1 else: sgn = 1` (Python
truthiness of the product). -/
def superSgn (px py : Nat) : Int :=
  if px * py = 0 then 1 else -1

/-- One triple of the super variant including the parity queries: `none`
models the `ValueError` raised by `is_even_odd` on a non-homogeneous
`x` or `y` (the parity of `z` is never queried). -/
def superTriple {L : Type} (A : LCAData L) (x y z : L) :
    Option (List ((Nat × Nat) × L)) :=
  match A.parityQ x with
  | none => none
  | some px =>
    match A.parityQ y with
    | none => none
    | some py => some (superJacWithSgn A (superSgn px py) x y z)

/-- The element-preprocessing loop of the super variant: an element whose
parity query raises is replaced by its even and odd components when the
algebra is with basis, and kept as is otherwise; all other elements are
kept unchanged. -/
def splitSample {L : Type} (A : LCAData L) (S : List L) : List L :=
  match S with
  | [] => []
  | s :: rest =>
    match A.parityQ s with
    | some _ => s :: splitSample A rest
    | none =>
      if A.hasB then A.evenC s :: A.oddC s :: splitSample A rest
      else s :: splitSample A rest

/-- Running the plain checker over a fixed list of triples, collecting each
triple's jacobiator. -/
def runCheck {L : Type} (A : LCAData L) (ts : List (L × L × L)) :
    List (List ((Nat × Nat) × L)) :=
  ts.map (fun t => jacobiatorPlain A t.1 t.2.1 t.2.2)

/-- Modelled from the spec: `some_tuples(S, 3, max_runs)` with a large
bound enumerates ordered triples of `S` in product order. -/
def allTriples {L : Type} (S : List L) : List (L × L × L) :=
  S.flatMap (fun x => S.flatMap (fun y => S.map (fun z => (x, y, z))))

/-- Modelled from the spec: the super checker walks the sampled triples and
halts at the first violation, reporting its nonzero jacobiator; a parity
error aborts with no jacobiator payload. -/
def firstFailure {L : Type} [DecidableEq L] (A : LCAData L)
    (ts : List (L × L × L)) : Option (List ((Nat × Nat) × L)) :=
  match ts with
  | [] => none
  | t :: rest =>
    match superTriple A t.1 t.2.1 t.2.2 with
    | none => none
    | some j => if j = [] then firstFailure A rest else some j

/-! ### The inconsistent regression fixture

Modelled from the spec: the deliberately inconsistent algebra with two
generators `a`, `b`, parity `(1, 0)`, brackets `bracket(a,a) = {0: b}` and
`bracket(b,a) = {0: a}`.  The reference construction completes the table by
skew-symmetry `[a_λ b] = -(-1)^{p(a)p(b)} [b_{-λ-T} a]` (stated in the
module's own docstring), which at these degree-zero brackets gives
`bracket(a,b) = {0: -a}` and `bracket(b,b) = {}`; the bracket of general
elements is the bilinear extension, with zero coefficients dropped.
An element `c_a·a + c_b·b` is the coefficient pair `(c_a, c_b) : ℤ × ℤ`. -/

/-- Modelled from the spec: the bilinear extension of the fixture's bracket
table; the sole degree-zero coefficient of `[u_λ v]` is
`(u_a v_a)·b - (u_a v_b)·a + (u_b v_a)·a`, omitted when zero. -/
def fixBracket (u v : Int × Int) : List (Nat × (Int × Int)) :=
  let c : Int × Int := (u.2 * v.1 - u.1 * v.2, u.1 * v.1)
  if c = (0, 0) then [] else [(0, c)]

/-- Modelled from the spec: parity `(1, 0)` — `a` is odd, `b` is even; a
mix of both generators is non-homogeneous, so its parity query raises. -/
def fixParity (u : Int × Int) : Option Nat :=
  if u.1 ≠ 0 ∧ u.2 ≠ 0 then none
  else if u.1 ≠ 0 then some 1 else some 0

/-- Modelled from the spec: the operation record of the inconsistent
fixture algebra, with basis `{a, b}` (so even/odd components project onto
the `b`- and `a`-coordinates). -/
def AFix : LCAData (Int × Int) where
  bracket := fixBracket
  zero := (0, 0)
  add := fun u v => (u.1 + v.1, u.2 + v.2)
  sub := fun u v => (u.1 - v.1, u.2 - v.2)
  smul := fun n u => (n * u.1, n * u.2)
  isZero := fun u => decide (u = (0, 0))
  parityQ := fixParity
  hasB := true
  evenC := fun u => (0, u.2)
  oddC := fun u => (u.1, 0)

/-- The generator `a` of the fixture. -/
def aGen : Int × Int := (1, 0)

/-- The generator `b` of the fixture. -/
def bGen : Int × Int := (0, 1)

/-- The fixture with every parity query answering even, used to compare
parities `(1,1)` against `(0,0)` with the brackets fixed. -/
def AFixEven : LCAData (Int × Int) :=
  { AFix with parityQ := fun _ => some 0 }

/-- The fixture reported as not with basis, used for the non-homogeneous
fallthrough of the sample-splitting loop. -/
def AFixNB : LCAData (Int × Int) :=
  { AFix with hasB := false }

/-! ### A two-torsion algebra

A rank-one module over `ℤ/2ℤ` with `bracket(g,g) = {0: g}`: integer
scalars act through their residue, so `-v = v` and the sign applied to the
`jac3` family cannot change any value. -/

/-- The bracket of the `ℤ/2ℤ` algebra: bilinear with `[g_λ g] = {0: g}`,
zero coefficients dropped. -/
def z2bracket (u v : ZMod 2) : List (Nat × ZMod 2) :=
  if u * v = 0 then [] else [(0, u * v)]

/-- The `ℤ/2ℤ` algebra with every element reported even. -/
def A2even : LCAData (ZMod 2) where
  bracket := z2bracket
  zero := 0
  add := fun u v => u + v
  sub := fun u v => u - v
  smul := fun n u => (n : ZMod 2) * u
  isZero := fun u => decide (u = 0)
  parityQ := fun _ => some 0
  hasB := true
  evenC := fun _ => 0
  oddC := fun u => u

/-- The `ℤ/2ℤ` algebra with every element reported odd; it differs from
`A2even` only in the parity query. -/
def A2odd : LCAData (ZMod 2) :=
  { A2even with parityQ := fun _ => some 1 }

/-- The contributions the specification prescribes for one accumulator
entry of `jac2`: for each `k` in `br2`'s domain, each `(j, v)` in `br2[k]`
and each `r` in `[0, j]` with `(k+r, j-r) = key`, the value
`C(k+r, r) · v`, in iteration order. -/
def jac2SpecContribs {L : Type} (A : LCAData L) (br2 : List (Nat × List (Nat × L)))
    (key : Nat × Nat) : List L :=
  br2.flatMap (fun kb => kb.2.flatMap (fun jv =>
    (List.range (jv.1 + 1)).filterMap (fun r =>
      if (kb.1 + r, jv.1 - r) = key then
        some (A.smul (Int.ofNat (Nat.choose (kb.1 + r) r)) jv.2)
      else none)))

/-- The `jac2` loop's iteration, flattened into one stream of
(target key, contribution) pairs in loop order. -/
def jac2Flat {L : Type} (A : LCAData L) (br2 : List (Nat × List (Nat × L))) :
    List ((Nat × Nat) × L) :=
  br2.flatMap (fun kb => kb.2.flatMap (fun jv =>
    (List.range (jv.1 + 1)).map (fun r =>
      ((kb.1 + r, jv.1 - r), A.smul (Int.ofNat (Nat.choose (kb.1 + r) r)) jv.2))))

theorem dget_dset {α β : Type} [DecidableEq α] (d : List (α × β)) (k k' : α)
    (v dflt : β) :
    dget (dset d k v) k' dflt = if k = k' then v else dget d k' dflt := by
  induction d with
  | nil => simp [dset, dget]
  | cons p rest ih =>
    obtain ⟨pk, pv⟩ := p
    by_cases h : pk = k
    · subst h
      by_cases h' : pk = k'
      · subst h'; simp [dset, dget]
      · simp [dset, dget, h']
    · by_cases h' : pk = k'
      · subst h'
        have : ¬ k = pk := fun hc => h hc.symm
        simp [dset, dget, h, this]
      · simp [dset, dget, h, h', ih]

theorem foldl_flatMap {α β γ : Type} (f : α → List β) (g : γ → β → γ)
    (l : List α) (init : γ) :
    (l.flatMap f).foldl g init = l.foldl (fun acc a => (f a).foldl g acc) init := by
  induction l generalizing init with
  | nil => simp
  | cons a rest ih => simp [List.flatMap_cons, List.foldl_append, ih]

theorem dget_accumFold {α L : Type} [DecidableEq α] (add : L → L → L) (zero : L)
    (ps : List (α × L)) (d : List (α × L)) (key : α) :
    dget (ps.foldl (fun d kv => dset d kv.1 (add (dget d kv.1 zero) kv.2)) d) key zero
      = (ps.filterMap (fun kv => if kv.1 = key then some kv.2 else none)).foldl add
          (dget d key zero) := by
  induction ps generalizing d with
  | nil => simp
  | cons kv rest ih =>
    simp only [List.foldl_cons, List.filterMap_cons]
    by_cases h : kv.1 = key
    · rw [ih]
      simp [h, dget_dset]
    · rw [ih]
      simp [h, dget_dset]

theorem jac2Dict_eq_fold {L : Type} (A : LCAData L)
    (br2 : List (Nat × List (Nat × L))) :
    jac2Dict A br2
      = (jac2Flat A br2).foldl
          (fun d kv => dset d kv.1 (A.add (dget d kv.1 A.zero) kv.2)) [] := by
  simp [jac2Dict, jac2Flat, foldl_flatMap, List.foldl_map]

theorem jac2Flat_filter {L : Type} (A : LCAData L)
    (br2 : List (Nat × List (Nat × L))) (key : Nat × Nat) :
    (jac2Flat A br2).filterMap (fun kv => if kv.1 = key then some kv.2 else none)
      = jac2SpecContribs A br2 key := by
  simp [jac2Flat, jac2SpecContribs, List.filterMap_flatMap, List.filterMap_map]
  rfl

theorem dset_of_not_mem {α β : Type} [DecidableEq α] (d : List (α × β)) (k : α)
    (v : β) (h : k ∉ d.map Prod.fst) : dset d k v = d ++ [(k, v)] := by
  induction d with
  | nil => simp [dset]
  | cons p rest ih =>
    simp only [List.map_cons, List.mem_cons, not_or] at h
    have hne : ¬ p.1 = k := fun hc => h.1 hc.symm
    simp [dset, hne, ih h.2]

theorem foldl_dset_of_nodup {α β : Type} [DecidableEq α] (ps : List (α × β)) :
    ∀ acc : List (α × β), ((acc ++ ps).map Prod.fst).Nodup →
      ps.foldl (fun d p => dset d p.1 p.2) acc = acc ++ ps := by
  induction ps with
  | nil => intro acc _; simp
  | cons p rest ih =>
    intro acc h
    have hmem : p.1 ∉ acc.map Prod.fst := by
      simp only [List.map_append, List.nodup_append] at h
      intro hc
      exact h.2.2 hc (by simp)
    have h' : ((acc ++ [p] ++ rest).map Prod.fst).Nodup := by
      simpa [List.append_assoc] using h
    rw [List.foldl_cons, dset_of_not_mem _ _ _ hmem, ih (acc ++ [p]) h']
    simp

theorem dictComp_of_nodup {α β : Type} [DecidableEq α] (ps : List (α × β))
    (h : (ps.map Prod.fst).Nodup) : dictComp ps = ps := by
  have := foldl_dset_of_nodup ps [] (by simpa using h)
  simpa [dictComp] using this

/-- The entry stream of the dict comprehension building `jac1`:
`((j, k), v)` for `k` in `br1`'s domain, `(j, v)` in `br1[k]`. -/
def jac1Pairs {L : Type} (br1 : List (Nat × List (Nat × L))) :
    List ((Nat × Nat) × L) :=
  br1.flatMap (fun kb => kb.2.map (fun jv => ((jv.1, kb.1), jv.2)))

/-- The entry stream of the dict comprehension building `jac3`:
`((k, j), v)` for `k` in `br3`'s domain, `(j, v)` in `br3[k]`. -/
def jac3Pairs {L : Type} (br3 : List (Nat × List (Nat × L))) :
    List ((Nat × Nat) × L) :=
  br3.flatMap (fun kb => kb.2.map (fun jv => ((kb.1, jv.1), jv.2)))

theorem jac1Dict_eq_pairs {L : Type} (br1 : List (Nat × List (Nat × L)))
    (h : ((jac1Pairs br1).map Prod.fst).Nodup) : jac1Dict br1 = jac1Pairs br1 := by
  have := dictComp_of_nodup (jac1Pairs br1) h
  simpa [jac1Dict, jac1Pairs] using this

theorem jac3Dict_eq_pairs {L : Type} (br3 : List (Nat × List (Nat × L)))
    (h : ((jac3Pairs br3).map Prod.fst).Nodup) : jac3Dict br3 = jac3Pairs br3 := by
  have := dictComp_of_nodup (jac3Pairs br3) h
  simpa [jac3Dict, jac3Pairs] using this

theorem plain_eq_sgnOne {L : Type} (A : LCAData L) (x y z : L)
    (h : ∀ v, A.smul 1 v = v) :
    jacobiatorPlain A x y z = superJacWithSgn A 1 x y z := by
  unfold jacobiatorPlain superJacWithSgn jac1Final superJacFinal
  simp only [h]

theorem superTriple_parity {L : Type} (A : LCAData L) (x y z : L) (px py : Nat)
    (hx : A.parityQ x = some px) (hy : A.parityQ y = some py) :
    superTriple A x y z = some (superJacWithSgn A (superSgn px py) x y z) := by
  simp [superTriple, hx, hy]

theorem AFix_smul_one : ∀ v : Int × Int, AFix.smul 1 v = v := by
  intro v
  show ((1 : Int) * v.1, (1 : Int) * v.2) = v
  simp

theorem AFix_isZero_iff : ∀ v : Int × Int, AFix.isZero v = true ↔ v = AFix.zero := by
  intro v
  show decide (v = (0, 0)) = true ↔ v = (0, 0)
  exact decide_eq_true_iff

/-- Claim C1: every accumulator entry of `jac2` is exactly the sum, in loop
order, of the contributions `C(k+r, r) · v` over all `k` in `br2`'s domain,
`(j, v)` in `br2[k]` and `r` in `[0, j]` with target key `(k+r, j-r)` — and
nothing else (an entry with no such contribution is the zero start of the
fold); concretely, a single source entry with `k = 2`, `j = 1` and value
`a` redistributes to exactly the keys `(2,1)` and `(3,0)` with coefficients
`C(2,0) = 1` and `C(3,1) = 3`. -/
theorem claim_C1 :
    (∀ (L : Type) (A : LCAData L) (br2 : List (Nat × List (Nat × L)))
        (key : Nat × Nat),
      dget (jac2Dict A br2) key A.zero
        = (jac2SpecContribs A br2 key).foldl A.add A.zero)
    ∧ jac2Dict AFix [(2, [(1, aGen)])] = [((2, 1), (1, 0)), ((3, 0), (3, 0))] := by
  constructor
  · intro L A br2 key
    rw [jac2Dict_eq_fold, dget_accumFold, jac2Flat_filter]
    simp [dget]
  · decide

/-- Claim C2: for one sampled triple, when the truthiness test agrees with
equality to zero, the checker's assertion passes (the filtered mapping of
nonzero entries is empty) exactly when every value of the final accumulator
`jac1 - jac2 - jac3` is the algebra's zero element. -/
theorem claim_C2 : ∀ (L : Type) (A : LCAData L) (x y z : L),
    (∀ v, A.isZero v = true ↔ v = A.zero) →
    (jacobiatorPlain A x y z = [] ↔ ∀ kv ∈ jac1Final A x y z, kv.2 = A.zero) := by
  intro L A x y z h
  unfold jacobiatorPlain
  rw [List.filter_eq_nil_iff]
  constructor
  · intro H kv hkv
    have hb := H kv hkv
    simp only [Bool.not_eq_true, Bool.not_eq_false] at hb
    exact (h kv.2).mp (by simpa using hb)
  · intro H kv hkv
    have hz : kv.2 = A.zero := H kv hkv
    simp [(h kv.2).mpr hz]

/-- Witness for C2 at the fixture algebra and the triple `(b, b, b)`. -/
theorem claim_C2_witness :
    (∀ v, AFix.isZero v = true ↔ v = AFix.zero)
    ∧ (jacobiatorPlain AFix bGen bGen bGen = []
       ↔ ∀ kv ∈ jac1Final AFix bGen bGen bGen, kv.2 = AFix.zero) :=
  ⟨AFix_isZero_iff, claim_C2 _ AFix bGen bGen bGen AFix_isZero_iff⟩

/-- Claim C3: on the inconsistent fixture (generators `a`, `b`, parity
`(1,0)`, `bracket(a,a) = {0: b}`, `bracket(b,a) = {0: a}`), the checker run
over the sampled triples of `[a, b, a]` halts at a violation whose
jacobiator payload is exactly `{(0,0): -3a}`; the offending first triple is
`(a, a, a)`, and the payload is non-empty. -/
theorem claim_C3 :
    firstFailure AFix (allTriples [aGen, bGen, aGen]) = some [((0, 0), (-3, 0))]
    ∧ superTriple AFix aGen aGen aGen = some [((0, 0), (-3, 0))]
    ∧ ([((0, 0), ((-3 : Int), (0 : Int)))] : List ((Nat × Nat) × (Int × Int))) ≠ [] := by
  refine ⟨by decide, by decide, by decide⟩

/-- Claim C4: the super sign is `-1` exactly when `parity(x)·parity(y) = 1`
(parities being `0` or `1`), and `+1` otherwise; the super pipeline applies
exactly that sign to the `jac3` family; and the plain variant coincides
with the super pipeline at sign `+1` (the factor is always `+1`), provided
the scalar action is unital. -/
theorem claim_C4 :
    (∀ px py : Nat, px ≤ 1 → py ≤ 1 → (superSgn px py = -1 ↔ px * py = 1))
    ∧ (∀ (L : Type) (A : LCAData L) (x y z : L) (px py : Nat),
        A.parityQ x = some px → A.parityQ y = some py →
        superTriple A x y z = some (superJacWithSgn A (superSgn px py) x y z))
    ∧ (∀ (L : Type) (A : LCAData L) (x y z : L),
        (∀ v, A.smul 1 v = v) →
        jacobiatorPlain A x y z = superJacWithSgn A 1 x y z) := by
  refine ⟨?_, ?_, ?_⟩
  · intro px py hx hy
    interval_cases px <;> interval_cases py <;> decide
  · intro L A x y z px py hx hy
    exact superTriple_parity A x y z px py hx hy
  · intro L A x y z h
    exact plain_eq_sgnOne A x y z h

/-- Witness for C4 at concrete parities and the fixture algebra. -/
theorem claim_C4_witness :
    (superSgn 1 1 = -1 ↔ 1 * 1 = 1)
    ∧ superTriple AFix aGen bGen aGen
        = some (superJacWithSgn AFix (superSgn 1 0) aGen bGen aGen)
    ∧ jacobiatorPlain AFix aGen aGen bGen = superJacWithSgn AFix 1 aGen aGen bGen :=
  ⟨claim_C4.1 1 1 (by decide) (by decide),
   claim_C4.2.1 _ AFix aGen bGen aGen 1 0 (by decide) (by decide),
   claim_C4.2.2 _ AFix aGen aGen bGen AFix_smul_one⟩

/-- Claim C5: the two first-level accumulators use opposite index
conventions — `jac1` is exactly the entries `((j, k), v)` and `jac3`
exactly the entries `((k, j), v)` over `k` in the domain and `(j, v)` in
the inner mapping, with no other entries, whenever the resulting composite
keys are distinct (as they are for dict-shaped input). -/
theorem claim_C5 :
    (∀ (L : Type) (br : List (Nat × List (Nat × L))),
      ((jac1Pairs br).map Prod.fst).Nodup → jac1Dict br = jac1Pairs br)
    ∧ (∀ (L : Type) (br : List (Nat × List (Nat × L))),
      ((jac3Pairs br).map Prod.fst).Nodup → jac3Dict br = jac3Pairs br) :=
  ⟨fun _ br h => jac1Dict_eq_pairs br h, fun _ br h => jac3Dict_eq_pairs br h⟩

/-- Witness for C5 on a concrete two-block nested mapping over `ℤ`. -/
theorem claim_C5_witness :
    (((jac1Pairs [(0, [(1, (5 : Int)), (2, 7)]), (4, [(0, 9)])]).map Prod.fst).Nodup
      ∧ jac1Dict [(0, [(1, (5 : Int)), (2, 7)]), (4, [(0, 9)])]
          = jac1Pairs [(0, [(1, (5 : Int)), (2, 7)]), (4, [(0, 9)])])
    ∧ (((jac3Pairs [(0, [(1, (5 : Int)), (2, 7)]), (4, [(0, 9)])]).map Prod.fst).Nodup
      ∧ jac3Dict [(0, [(1, (5 : Int)), (2, 7)]), (4, [(0, 9)])]
          = jac3Pairs [(0, [(1, (5 : Int)), (2, 7)]), (4, [(0, 9)])]) :=
  ⟨⟨by decide, claim_C5.1 _ _ (by decide)⟩,
   ⟨by decide, claim_C5.2 _ _ (by decide)⟩⟩

/-- Counterexample to claim C6 as stated: over the `ℤ/2ℤ` algebra the
triple `(g, g, g)` has a nonzero `jac3` family (the mapping built from
`br3` is `{(0,0): g}`), the two parity assignments `(0,0)` and `(1,1)`
keep every bracket fixed, yet the computed jacobiator mappings of the two
runs are identical (the flipped sign acts trivially on 2-torsion). -/
theorem claim_C6_cex :
    A2odd.bracket = A2even.bracket
    ∧ A2even.parityQ 1 = some 0 ∧ A2odd.parityQ 1 = some 1
    ∧ jac3Dict ((A2even.bracket 1 1).map (fun kv => (kv.1, A2even.bracket 1 kv.2))) ≠ []
    ∧ superTriple A2even 1 1 1 = superTriple A2odd 1 1 1 :=
  ⟨rfl, by decide, by decide, by decide, by decide⟩

/-- Claim C6 (amended): changing the parities of `x` and `y` from `(0,0)`
to `(1,1)` while keeping the brackets fixed flips the sign applied to the
`jac3` contribution from `+1` to `-1`; on an algebra whose `jac3` values
have no 2-torsion — such as the reference fixture — the computed
jacobiator mapping then differs, while over a 2-torsion module the two
mappings can coincide. -/
theorem claim_C6 :
    (∀ (L : Type) (A : LCAData L) (x y z : L),
      A.parityQ x = some 0 → A.parityQ y = some 0 →
      superTriple A x y z = some (superJacWithSgn A 1 x y z))
    ∧ (∀ (L : Type) (A : LCAData L) (x y z : L),
      A.parityQ x = some 1 → A.parityQ y = some 1 →
      superTriple A x y z = some (superJacWithSgn A (-1) x y z))
    ∧ (AFixEven.bracket = AFix.bracket
       ∧ AFixEven.parityQ aGen = some 0 ∧ AFix.parityQ aGen = some 1
       ∧ superTriple AFixEven aGen aGen aGen ≠ superTriple AFix aGen aGen aGen) := by
  refine ⟨?_, ?_, rfl, by decide, by decide, by decide⟩
  · intro L A x y z hx hy
    have := superTriple_parity A x y z 0 0 hx hy
    simpa [superSgn] using this
  · intro L A x y z hx hy
    have := superTriple_parity A x y z 1 1 hx hy
    simpa [superSgn] using this

/-- Witness for the amended C6 at the fixture algebra. -/
theorem claim_C6_witness :
    (AFixEven.parityQ aGen = some 0
      ∧ superTriple AFixEven aGen aGen aGen
          = some (superJacWithSgn AFixEven 1 aGen aGen aGen))
    ∧ (AFix.parityQ aGen = some 1
      ∧ superTriple AFix aGen aGen aGen
          = some (superJacWithSgn AFix (-1) aGen aGen aGen)) :=
  ⟨⟨by decide, claim_C6.1 _ AFixEven aGen aGen aGen (by decide) (by decide)⟩,
   ⟨by decide, claim_C6.2.1 _ AFix aGen aGen aGen (by decide) (by decide)⟩⟩

/-- Claim C7: in the super variant's preprocessing, when the algebra is
with basis, each element whose parity query raises is replaced in the
sample by its even component followed by its odd component, and every
other element is kept unchanged. -/
theorem claim_C7 : ∀ (L : Type) (A : LCAData L) (S : List L),
    A.hasB = true →
    splitSample A S
      = S.flatMap (fun s =>
          match A.parityQ s with
          | none => [A.evenC s, A.oddC s]
          | some _ => [s]) := by
  intro L A S h
  induction S with
  | nil => simp [splitSample]
  | cons s rest ih =>
    cases hp : A.parityQ s with
    | none => simp [splitSample, hp, h, ih]
    | some p => simp [splitSample, hp, ih]

/-- Witness for C7: the fixture is with basis and the non-homogeneous
element `a + b` splits into its even and odd components. -/
theorem claim_C7_witness :
    AFix.hasB = true
    ∧ splitSample AFix [((1 : Int), (1 : Int)), aGen]
        = [((1 : Int), (1 : Int)), aGen].flatMap (fun s =>
            match AFix.parityQ s with
            | none => [AFix.evenC s, AFix.oddC s]
            | some _ => [s]) :=
  ⟨rfl, claim_C7 _ AFix [((1 : Int), (1 : Int)), aGen] rfl⟩

/-- Claim C8: the per-triple computation is a pure function of the bracket
operation and module data — two structures agreeing on the fields the
plain checker reads produce identical jacobiator mappings over any fixed
triple list, and likewise for the super variant once the parity query also
agrees; in particular two runs on the same inputs coincide. -/
theorem claim_C8 : ∀ (L : Type) (A B : LCAData L),
    A.bracket = B.bracket → A.zero = B.zero → A.add = B.add →
    A.sub = B.sub → A.smul = B.smul → A.isZero = B.isZero →
    (∀ ts, runCheck A ts = runCheck B ts)
    ∧ (A.parityQ = B.parityQ →
        ∀ x y z, superTriple A x y z = superTriple B x y z) := by
  intro L A B h1 h2 h3 h4 h5 h6
  obtain ⟨f1, z1, a1, s1, m1, i1, p1, b1, e1, o1⟩ := A
  obtain ⟨f2, z2, a2, s2, m2, i2, p2, b2, e2, o2⟩ := B
  simp only at h1 h2 h3 h4 h5 h6
  subst h1 h2 h3 h4 h5 h6
  constructor
  · intro ts
    rfl
  · intro hp x y z
    simp only at hp
    subst hp
    rfl

/-- Witness for C8 at the fixture algebra compared with itself. -/
theorem claim_C8_witness :
    runCheck AFix [(aGen, aGen, aGen)] = runCheck AFix [(aGen, aGen, aGen)]
    ∧ superTriple AFix aGen bGen aGen = superTriple AFix aGen bGen aGen :=
  ⟨(claim_C8 _ AFix AFix rfl rfl rfl rfl rfl rfl).1 [(aGen, aGen, aGen)],
   (claim_C8 _ AFix AFix rfl rfl rfl rfl rfl rfl).2 rfl aGen bGen aGen⟩

/-- Claim C9: for a triple whose `x` and `y` parities are not both odd
(`px · py = 0`), the super checker computes exactly the plain checker's
jacobiator (the sign is `+1` and the rest of the two pipelines coincide),
provided the scalar action is unital. -/
theorem claim_C9 : ∀ (L : Type) (A : LCAData L) (x y z : L) (px py : Nat),
    (∀ v, A.smul 1 v = v) →
    A.parityQ x = some px → A.parityQ y = some py → px * py = 0 →
    superTriple A x y z = some (jacobiatorPlain A x y z) := by
  intro L A x y z px py hs hx hy hp
  rw [superTriple_parity A x y z px py hx hy]
  rw [plain_eq_sgnOne A x y z hs]
  simp [superSgn, hp]

/-- Witness for C9 at the fixture algebra with the mixed-parity triple
`(a, b, b)`. -/
theorem claim_C9_witness :
    (∀ v, AFix.smul 1 v = v)
    ∧ AFix.parityQ aGen = some 1 ∧ AFix.parityQ bGen = some 0
    ∧ superTriple AFix aGen bGen bGen = some (jacobiatorPlain AFix aGen bGen bGen) :=
  ⟨AFix_smul_one, by decide, by decide,
   claim_C9 _ AFix aGen bGen bGen 1 0 AFix_smul_one (by decide) (by decide) (by decide)⟩

/-- Claim C10: when the algebra is not with basis, the preprocessing loop
keeps every element — including non-homogeneous ones — unchanged, and any
later triple whose `x` (or `y`) has an undefined parity aborts with the
parity error rather than producing a jacobiator payload. -/
theorem claim_C10 : ∀ (L : Type) (A : LCAData L),
    A.hasB = false →
    (∀ S : List L, splitSample A S = S)
    ∧ (∀ x y z : L, A.parityQ x = none → superTriple A x y z = none)
    ∧ (∀ x y z : L, A.parityQ y = none → superTriple A x y z = none) := by
  intro L A h
  refine ⟨?_, ?_, ?_⟩
  · intro S
    induction S with
    | nil => rfl
    | cons s rest ih =>
      cases hp : A.parityQ s with
      | none => simp [splitSample, hp, h, ih]
      | some p => simp [splitSample, hp, ih]
  · intro x y z hx
    simp [superTriple, hx]
  · intro x y z hy
    cases hx : A.parityQ x with
    | none => simp [superTriple, hx]
    | some px => simp [superTriple, hx, hy]

/-- Witness for C10: the basis-free fixture keeps the non-homogeneous
element `a + b`, and a triple led by it aborts with the parity error. -/
theorem claim_C10_witness :
    AFixNB.hasB = false
    ∧ splitSample AFixNB [((1 : Int), (1 : Int))] = [((1 : Int), (1 : Int))]
    ∧ superTriple AFixNB ((1 : Int), (1 : Int)) bGen bGen = none :=
  ⟨rfl, (claim_C10 _ AFixNB rfl).1 [((1 : Int), (1 : Int))],
   (claim_C10 _ AFixNB rfl).2.1 ((1 : Int), (1 : Int)) bGen bGen (by decide)⟩
